import Mathlib

/-!
# Verification of the muellabfuhr_reminder calendar-ingestion core

Shallow embedding of `src/bin/main.rs`: the date codec (`parse_yyyymmdd`),
the calendar parser (`extract_ics_event`), the wifi link-supervisor task
(`connection`) and the address-acquisition wait (`wait_for_connection`),
together with proofs of the specification claims about them.

Rust strings (`&str` / `String`) are modelled as `List Char` (every
`List Char` is a valid UTF-8 string, which is exactly the `&str` domain).
Byte-level operations of the source (`s.len()`, `s[a..b]`) are modelled
through the UTF-8 byte length of each character, so that the byte-index
slicing of the source — which panics when an index is not a character
boundary — is modelled faithfully.
-/

namespace Muell

/-- UTF-8 encoded length in bytes of one character. -/
def utf8Len (c : Char) : Nat :=
  if c.toNat < 0x80 then 1
  else if c.toNat < 0x800 then 2
  else if c.toNat < 0x10000 then 3
  else 4

/-- Byte length of a string, the model of Rust `str::len`. -/
def byteLen (s : List Char) : Nat := (s.map utf8Len).sum

/-- Model of splitting a Rust `&str` at byte index `n` (`&s[..n]` / `&s[n..]`):
`none` when `n` is not a character boundary or exceeds the byte length —
the cases in which the source slicing panics. -/
def byteSplitAt : Nat → List Char → Option (List Char × List Char)
  | 0, s => some ([], s)
  | _ + 1, [] => none
  | n + 1, c :: cs =>
    if utf8Len c ≤ n + 1 then
      (byteSplitAt (n + 1 - utf8Len c) cs).map (fun p => (c :: p.1, p.2))
    else none

/-- ASCII digit test (`'0'..'9'`), as used by Rust's unsigned-integer parse. -/
def isDigitCh (c : Char) : Bool := 48 ≤ c.toNat && c.toNat ≤ 57

/-- Numeric value of a digit string under left-to-right accumulation. -/
def digitsVal (s : List Char) : Nat := s.foldl (fun a c => a * 10 + (c.toNat - 48)) 0

/-- Model of Rust `str::parse::<uN>` (`from_str` for an unsigned integer
with maximum value `mx`): an optional leading `'+'`, then one or more ASCII
digits, value within range; anything else is an error (`none`). -/
def parseUnsigned (mx : Nat) (s : List Char) : Option Nat :=
  let digits := match s with
    | c :: rest => if c = '+' then rest else s
    | [] => []
  if digits.isEmpty then none
  else if digits.all isDigitCh then
    if digitsVal digits ≤ mx then some (digitsVal digits) else none
  else none

/-- The five `&'static str` error messages of `parse_yyyymmdd`, kept distinct.
The spec's `FormatError` kind covers the first four, `RangeError` the last. -/
inductive DateErr where
  | expectedEight   -- "Expected 8 characters (YYYYMMDD)"
  | invalidYear     -- "Invalid year"
  | invalidMonth    -- "Invalid month"
  | invalidDay      -- "Invalid day"
  | invalidDate     -- "Invalid date"
deriving DecidableEq, Repr

/-- The spec's `FormatError` kind: length or sub-field parse failures. -/
def DateErr.isFormatError : DateErr → Bool
  | .expectedEight | .invalidYear | .invalidMonth | .invalidDay => true
  | .invalidDate => false

/-- The spec's `RangeError` kind: the triple is not a real calendar date. -/
def DateErr.isRangeError : DateErr → Bool
  | .invalidDate => true
  | _ => false

/-- The date value produced by the codec (year, month, day). -/
structure UTCDate where
  year : Nat
  month : Nat
  day : Nat
deriving DecidableEq, Repr

/-- Proleptic-Gregorian leap-year rule. -/
def isLeapYear (y : Nat) : Bool := y % 4 = 0 && (y % 100 ≠ 0 || y % 400 = 0)

/-- Days in a month of a given year (proleptic Gregorian). -/
def daysInMonth (y m : Nat) : Nat :=
  if m = 2 then (if isLeapYear y then 29 else 28)
  else if m = 4 || m = 6 || m = 9 || m = 11 then 30
  else 31

/-- Whether (year, month, day) denotes a real calendar date. -/
def validTriple (y m d : Nat) : Bool :=
  1 ≤ m && m ≤ 12 && 1 ≤ d && d ≤ daysInMonth y m

/-- Modelled from the spec: the validating date constructor
`UTCDate::try_from_components` comes from the external `utc_dt` crate, whose
source is not part of this repository; per the spec's Date Codec contract the
triple must denote a real calendar date (month 1–12, day valid for that
month/year including leap years), else the construction fails. -/
def try_from_components (y m d : Nat) : Option UTCDate :=
  if validTriple y m d then some ⟨y, m, d⟩ else none

/-- Outcome of `parse_yyyymmdd`: a date, one of the five typed errors, or a
panic (byte-index slicing at a non-character boundary). -/
inductive DateResult where
  | ok : UTCDate → DateResult
  | error : DateErr → DateResult
  | panicked : DateResult
deriving DecidableEq, Repr

/-- The largest `u64` value, the range bound of the year parse. -/
def u64Max : Nat := 2 ^ 64 - 1

/-- Model of `parse_yyyymmdd` (src/bin/main.rs:69-79): byte-length check,
then byte slices `[0..4]`, `[4..6]`, `[6..8]` parsed as unsigned integers
(year `u64`, month/day `u8`), then the validating date construction.
Slicing at a non-character boundary is the `panicked` outcome. -/
def parse_yyyymmdd (s : List Char) : DateResult :=
  if byteLen s ≠ 8 then .error .expectedEight
  else match byteSplitAt 4 s with
    | none => .panicked
    | some (ys, rest4) =>
      match parseUnsigned u64Max ys with
      | none => .error .invalidYear
      | some year =>
        match byteSplitAt 2 rest4 with
        | none => .panicked
        | some (ms, rest6) =>
          match parseUnsigned 255 ms with
          | none => .error .invalidMonth
          | some month =>
            match byteSplitAt 2 rest6 with
            | none => .panicked
            | some (ds, _) =>
              match parseUnsigned 255 ds with
              | none => .error .invalidDay
              | some day =>
                match try_from_components year month day with
                | none => .error .invalidDate
                | some d => .ok d

/-! ## Calendar parser (`extract_ics_event`) -/

/-- The pickup-category enumeration `Event` of the source. The source names
`Restmüll` and `Weihnachtsbäume` contain umlauts, which Lean identifiers do
not admit; they are transliterated to `Restmuell` / `Weihnachtsbaeume`. -/
inductive Event where
  | Verpackungs
  | Bio
  | Papier
  | Restmuell
  | Laubsack
  | Weihnachtsbaeume
deriving DecidableEq, Repr

/-- One parsed record, the source's `IcsEvent`. -/
structure IcsEvent where
  dtstart : UTCDate
  event_type : Event
deriving DecidableEq, Repr

/-- Rust `char::is_whitespace`: the Unicode `White_Space` property. -/
def rustIsWhitespace (c : Char) : Bool :=
  let n := c.toNat
  (0x9 ≤ n && n ≤ 0xD) || n = 0x20 || n = 0x85 || n = 0xA0 || n = 0x1680 ||
  (0x2000 ≤ n && n ≤ 0x200A) || n = 0x2028 || n = 0x2029 || n = 0x202F ||
  n = 0x205F || n = 0x3000

/-- Model of Rust `str::trim_end`. -/
def trimEnd (s : List Char) : List Char :=
  (s.reverse.dropWhile rustIsWhitespace).reverse

/-- Model of Rust `str::trim_start`. -/
def trimStart (s : List Char) : List Char := s.dropWhile rustIsWhitespace

/-- Model of Rust `str::trim`. -/
def rustTrim (s : List Char) : List Char := trimStart (trimEnd s)

/-- `"DTSTART;"`, the branch guard of the date line. -/
def dtstartSemi : List Char := "DTSTART;".toList

/-- `"DTSTART;TZID=Europe/Berlin;VALUE=DATE:"`, the asserted full prefix
(38 ASCII characters, so byte index 38 is the start of the date slice). -/
def dtstartFull : List Char := "DTSTART;TZID=Europe/Berlin;VALUE=DATE:".toList

/-- `"SUMMARY:"` (8 ASCII characters). -/
def summaryPre : List Char := "SUMMARY:".toList

/-- `"END:VEVENT"`, the block terminator. -/
def endVevent : List Char := "END:VEVENT".toList

/-- The six recognized summary texts, in source order. -/
def summaryText : Event → List Char
  | .Verpackungs => "Abfuhr gelbe Wertstofftonne/-sack".toList
  | .Bio => "Abfuhr grüne Biotonne".toList
  | .Papier => "Abfuhr blaue Papiertonne".toList
  | .Restmuell => "Abfuhr schwarze Restmülltonne".toList
  | .Laubsack => "Abfuhr Laubsäcke".toList
  | .Weihnachtsbaeume => "Abfuhr Weihnachtsbäume".toList

/-- The mutable locals of `extract_ics_event` while scanning:
the output built so far and the two pending scratch fields. -/
structure PState where
  events : List IcsEvent
  event_type : Option Event
  start_ts : Option UTCDate
deriving DecidableEq, Repr

/-- The initial parser state: no output, both pending fields empty. -/
def initPState : PState := ⟨[], none, none⟩

/-- The panic sites of `extract_ics_event`: the two `assert!`s on the date
line, the `unwrap` of `parse_yyyymmdd` (either a returned error or a panic
inside the codec), and the two `assert!`s at `END:VEVENT`. An
`Except.error` of this type models an untyped halt (panic), not a value
returned to the caller — the source function's return type is plain
`Vec<IcsEvent>` with no error channel. -/
inductive PanicKind where
  | dtstartPrefixAssert
  | dtstartLenAssert
  | dtstartDateUnwrap
  | dtstartDatePanic
  | endMissingStart
  | endMissingEvent
deriving DecidableEq, Repr

/-- One iteration of the `for line_str in ics_document.lines()` loop of
`extract_ics_event` (src/bin/main.rs:86-127). Note that the `END:VEVENT`
branch pushes the event but does NOT reset `start_ts` / `event_type`,
exactly as in the source. -/
def stepLine (st : PState) (line_str : List Char) : Except PanicKind PState :=
  let line := trimEnd line_str
  if dtstartSemi.isPrefixOf line then
    if !dtstartFull.isPrefixOf line then .error .dtstartPrefixAssert
    else if byteLen line ≠ 46 then .error .dtstartLenAssert
    else match parse_yyyymmdd (line.drop 38) with
      | .ok d => .ok { st with start_ts := some d }
      | .error _ => .error .dtstartDateUnwrap
      | .panicked => .error .dtstartDatePanic
  else if summaryPre.isPrefixOf line then
    let event_name := rustTrim (line.drop 8)
    if event_name = summaryText .Verpackungs then
      .ok { st with event_type := some .Verpackungs }
    else if event_name = summaryText .Bio then
      .ok { st with event_type := some .Bio }
    else if event_name = summaryText .Papier then
      .ok { st with event_type := some .Papier }
    else if event_name = summaryText .Restmuell then
      .ok { st with event_type := some .Restmuell }
    else if event_name = summaryText .Laubsack then
      .ok { st with event_type := some .Laubsack }
    else if event_name = summaryText .Weihnachtsbaeume then
      .ok { st with event_type := some .Weihnachtsbaeume }
    else
      .ok st  -- "Unknown Event" diagnostic only; state unchanged
  else if line = endVevent then
    match st.start_ts with
    | none => .error .endMissingStart
    | some d =>
      match st.event_type with
      | none => .error .endMissingEvent
      | some e => .ok { st with events := st.events ++ [⟨d, e⟩] }
  else .ok st

/-- The whole line loop, threading the state and stopping at a panic. -/
def runLines (st : PState) : List (List Char) → Except PanicKind PState
  | [] => .ok st
  | l :: ls =>
    match stepLine st l with
    | .error p => .error p
    | .ok st' => runLines st' ls

/-- Split a character list at every `'\n'` (the separator is consumed). -/
def splitNl (s : List Char) : List (List Char) :=
  match s with
  | [] => [[]]
  | c :: cs =>
    let rest := splitNl cs
    if c = '\n' then [] :: rest
    else match rest with
      | [] => [[c]]
      | r :: rs => (c :: r) :: rs

/-- Model of Rust `str::lines`: split on `'\n'`, drop a final empty segment
(terminator semantics), and strip one trailing `'\r'` from each line. -/
def rustLines (s : List Char) : List (List Char) :=
  let parts := splitNl s
  let parts := if parts.getLast? = some [] then parts.dropLast else parts
  parts.map (fun l => if l.getLast? = some '\r' then l.dropLast else l)

/-- The parser on a document given as its sequence of lines. -/
def extract_ics_event_lines (doc : List (List Char)) :
    Except PanicKind (List IcsEvent) :=
  (runLines initPState doc).map PState.events

/-- Model of `extract_ics_event` (src/bin/main.rs:81-129) on the raw
document text. -/
def extract_ics_event (ics_document : List Char) :
    Except PanicKind (List IcsEvent) :=
  extract_ics_event_lines (rustLines ics_document)

/-! ## Link supervisor (`connection` task)

The task is an infinite `loop`; each iteration awaits results from the
external wifi controller. One iteration is modelled as a function of the
controller's responses for that iteration (an oracle environment), emitting
the observable actions of the iteration; a finite run is the concatenation
over a list of per-iteration environments. `unwrap` on a controller error
is a panic that terminates the task. -/

/-- The controller's responses consumed by one iteration of the
`connection` loop. -/
structure ConnEnv where
  /-- `esp_radio::wifi::sta_state() == WifiStaState::Connected` at the top. -/
  staConnected : Bool
  /-- `matches!(controller.is_started(), Ok(true))`. -/
  isStartedOk : Bool
  /-- `controller.set_config(..)` succeeds. -/
  setConfigOk : Bool
  /-- `controller.start_async().await` succeeds. -/
  startOk : Bool
  /-- `controller.scan_with_config_async(..).await` succeeds. -/
  scanOk : Bool
  /-- `controller.connect_async().await` succeeds. -/
  connectOk : Bool
deriving DecidableEq, Repr

/-- Observable actions of the `connection` task. -/
inductive ConnAction where
  | awaitDisconnect
  | delayMs (n : Nat)
  | startRadio
  | scanAps
  | attemptConnect
  | connectedLog
  | connectFailedLog
deriving DecidableEq, Repr

/-- The `unwrap` sites inside the `connection` loop. -/
inductive ConnPanic where
  | setConfigUnwrap
  | startUnwrap
  | scanUnwrap
deriving DecidableEq, Repr

/-- The tail of an iteration: `controller.connect_async().await` and the
match on its result (5000 ms backoff on failure). -/
def connectActs (env : ConnEnv) : List ConnAction :=
  if env.connectOk then [.attemptConnect, .connectedLog]
  else [.attemptConnect, .connectFailedLog, .delayMs 5000]

/-- One iteration of the `connection` loop (src/bin/main.rs:206-245):
if associated, await the disconnect event then 5000 ms cooldown; if the
radio is not started, configure / start / scan (each `unwrap`ped — a
failure panics the task); then attempt association, with a 5000 ms backoff
on failure. Returns the actions performed and an optional panic. -/
def connectionIter (env : ConnEnv) : List ConnAction × Option ConnPanic :=
  let pre : List ConnAction :=
    if env.staConnected then [.awaitDisconnect, .delayMs 5000] else []
  if !env.isStartedOk then
    if !env.setConfigOk then (pre, some .setConfigUnwrap)
    else if !env.startOk then (pre, some .startUnwrap)
    else if !env.scanOk then (pre ++ [.startRadio], some .scanUnwrap)
    else (pre ++ [.startRadio, .scanAps] ++ connectActs env, none)
  else (pre ++ connectActs env, none)

/-- A finite run of the `connection` task over a list of per-iteration
environments: the concatenated action trace, cut short at the first panic. -/
def connectionRun : List ConnEnv → List ConnAction × Option ConnPanic
  | [] => ([], none)
  | e :: es =>
    let (acts, p) := connectionIter e
    match p with
    | some k => (acts, some k)
    | none =>
      let (acts2, p2) := connectionRun es
      (acts ++ acts2, p2)

/-- The environment of one association-failure iteration: radio already
started, not associated, `connect_async` fails. -/
def assocFailEnv : ConnEnv :=
  { staConnected := false, isStartedOk := true, setConfigOk := true,
    startOk := true, scanOk := true, connectOk := false }

/-! ## Address acquisition wait (`wait_for_connection`) -/

/-- The network layer's responses: `linkUp k` is the result of the k-th
`stack.is_link_up()` poll, `cfg j` the result of the j-th
`stack.config_v4()` poll (an IPv4 configuration modelled by its address). -/
structure NetEnv where
  linkUp : Nat → Bool
  cfg : Nat → Option Nat

/-- Observable actions of `wait_for_connection`. -/
inductive WaitAction where
  | pollLink (r : Bool)
  | pollCfg (r : Option Nat)
  | sleep500
  | printGotIp (addr : Nat)
deriving DecidableEq, Repr

/-- Phase 1 (src/bin/main.rs:185-190): poll `is_link_up`; break when true,
else 500 ms timer and poll again. `fuel` bounds the modelled run; `none`
means the loop was still running after `fuel` polls. -/
def phase1Go (linkUp : Nat → Bool) : Nat → Nat → Option (List WaitAction)
  | 0, _ => none
  | f + 1, k =>
    if linkUp k then some [.pollLink true]
    else (phase1Go linkUp f (k + 1)).map
      (fun t => .pollLink false :: .sleep500 :: t)

/-- Phase 2 (src/bin/main.rs:193-199): poll `config_v4`; on `Some(config)`
print the address and break, else 500 ms timer and poll again. -/
def phase2Go (cfg : Nat → Option Nat) : Nat → Nat → Option (List WaitAction)
  | 0, _ => none
  | f + 1, j =>
    match cfg j with
    | some a => some [.pollCfg (some a), .printGotIp a]
    | none => (phase2Go cfg f (j + 1)).map
        (fun t => .pollCfg none :: .sleep500 :: t)

/-- Model of `wait_for_connection` (src/bin/main.rs:183-200): phase 1 to
completion, then phase 2; the function's Rust return type is `()`, so a
completed run yields the action trace paired with the unit return value. -/
def wait_for_connection (env : NetEnv) (fuel : Nat) :
    Option (List WaitAction × Unit) :=
  match phase1Go env.linkUp fuel 0 with
  | none => none
  | some t1 =>
    match phase2Go env.cfg fuel 0 with
    | none => none
    | some t2 => some (t1 ++ t2, ())

/-- The value `wait_for_connection` hands back to its caller. -/
def waitReturnValue (env : NetEnv) (fuel : Nat) : Option Unit :=
  (wait_for_connection env fuel).map (fun r => r.2)

/-! ## Helper lemmas: UTF-8 byte lengths and slicing -/

theorem utf8Len_pos (c : Char) : 1 ≤ utf8Len c := by
  unfold utf8Len
  split
  · omega
  split
  · omega
  split <;> omega

theorem utf8Len_eq_one_of_digit {c : Char} (h : isDigitCh c = true) :
    utf8Len c = 1 := by
  unfold isDigitCh at h
  unfold utf8Len
  rw [if_pos]
  simp only [Bool.and_eq_true, decide_eq_true_eq] at h
  omega

theorem byteLen_nil : byteLen [] = 0 := rfl

theorem byteLen_cons (c : Char) (cs : List Char) :
    byteLen (c :: cs) = utf8Len c + byteLen cs := by
  simp [byteLen]

theorem byteLen_append (a b : List Char) :
    byteLen (a ++ b) = byteLen a + byteLen b := by
  simp [byteLen]

theorem byteLen_ascii {s : List Char} (h : ∀ c ∈ s, utf8Len c = 1) :
    byteLen s = s.length := by
  induction s with
  | nil => rfl
  | cons c cs ih =>
    rw [byteLen_cons, h c (by simp), ih (fun x hx => h x (by simp [hx]))]
    simp [Nat.add_comm]

theorem byteSplitAt_append (t r : List Char) :
    byteSplitAt (byteLen t) (t ++ r) = some (t, r) := by
  induction t with
  | nil => simp [byteLen, byteSplitAt]
  | cons c cs ih =>
    have h1 : 1 ≤ utf8Len c := utf8Len_pos c
    have hbl : byteLen (c :: cs) = utf8Len c + byteLen cs := byteLen_cons c cs
    obtain ⟨m, hm⟩ : ∃ m, byteLen (c :: cs) = m + 1 :=
      ⟨byteLen (c :: cs) - 1, by omega⟩
    rw [List.cons_append, hm]
    have hle : utf8Len c ≤ m + 1 := by omega
    have hsub : m + 1 - utf8Len c = byteLen cs := by omega
    simp only [byteSplitAt, if_pos hle, hsub, ih, Option.map_some']

theorem byteSplitAt_full {s : List Char} {n : Nat} (h : byteLen s = n) :
    byteSplitAt n s = some (s, []) := by
  subst h
  have := byteSplitAt_append s []
  rwa [List.append_nil] at this

theorem byteSplitAt_some_spec :
    ∀ (s : List Char) (n : Nat) (a b : List Char),
      byteSplitAt n s = some (a, b) → s = a ++ b ∧ byteLen a = n := by
  intro s
  induction s with
  | nil =>
    intro n a b h
    cases n with
    | zero =>
      simp only [byteSplitAt, Option.some_inj, Prod.mk.injEq] at h
      obtain ⟨ha, hb⟩ := h
      subst ha; subst hb
      exact ⟨rfl, rfl⟩
    | succ n => simp [byteSplitAt] at h
  | cons c cs ih =>
    intro n a b h
    cases n with
    | zero =>
      simp only [byteSplitAt, Option.some_inj, Prod.mk.injEq] at h
      obtain ⟨ha, hb⟩ := h
      subst ha; subst hb
      exact ⟨rfl, rfl⟩
    | succ n =>
      simp only [byteSplitAt] at h
      by_cases hle : utf8Len c ≤ n + 1
      · rw [if_pos hle] at h
        cases hsp : byteSplitAt (n + 1 - utf8Len c) cs with
        | none => rw [hsp] at h; simp at h
        | some p =>
          rw [hsp] at h
          simp only [Option.map_some', Option.some_inj, Prod.mk.injEq] at h
          obtain ⟨ha, hb⟩ := h
          obtain ⟨hp1, hp2⟩ := ih (n + 1 - utf8Len c) p.1 p.2 (by rw [hsp])
          subst ha; subst hb
          constructor
          · rw [List.cons_append, ← hp1]
          · rw [byteLen_cons, hp2]; omega
      · rw [if_neg hle] at h; simp at h

/-! ## Helper lemmas: digit strings and the unsigned-integer parse -/

theorem digitsVal_aux_lt {s : List Char} (h : ∀ c ∈ s, isDigitCh c = true) :
    ∀ a, s.foldl (fun a c => a * 10 + (c.toNat - 48)) a < (a + 1) * 10 ^ s.length := by
  induction s with
  | nil => intro a; simp
  | cons c cs ih =>
    intro a
    have hc := h c (by simp)
    have hd : c.toNat - 48 ≤ 9 := by
      unfold isDigitCh at hc
      simp only [Bool.and_eq_true, decide_eq_true_eq] at hc
      omega
    have step := ih (fun x hx => h x (by simp [hx])) (a * 10 + (c.toNat - 48))
    have hmul : (a * 10 + (c.toNat - 48) + 1) * 10 ^ cs.length ≤
        ((a + 1) * 10) * 10 ^ cs.length :=
      Nat.mul_le_mul_right _ (by omega)
    calc (c :: cs).foldl (fun a c => a * 10 + (c.toNat - 48)) a
        = cs.foldl (fun a c => a * 10 + (c.toNat - 48)) (a * 10 + (c.toNat - 48)) := by
          simp [List.foldl_cons]
      _ < (a * 10 + (c.toNat - 48) + 1) * 10 ^ cs.length := step
      _ ≤ ((a + 1) * 10) * 10 ^ cs.length := hmul
      _ = (a + 1) * 10 ^ (c :: cs).length := by
          simp [List.length_cons, pow_succ]; ring

theorem digitsVal_lt {s : List Char} (h : ∀ c ∈ s, isDigitCh c = true) :
    digitsVal s < 10 ^ s.length := by
  have := digitsVal_aux_lt h 0
  simpa [digitsVal] using this

theorem parseUnsigned_digits {mx : Nat} {s : List Char} (hne : s ≠ [])
    (h : ∀ c ∈ s, isDigitCh c = true) (hb : digitsVal s ≤ mx) :
    parseUnsigned mx s = some (digitsVal s) := by
  obtain ⟨c, cs, rfl⟩ := List.exists_cons_of_ne_nil hne
  have hc := h c (by simp)
  have hplus : ¬ c = '+' := by
    intro hcp
    rw [hcp] at hc
    simp [isDigitCh] at hc
  have hall : (c :: cs).all isDigitCh = true := by
    rw [List.all_eq_true]; exact h
  simp only [parseUnsigned, if_neg hplus, List.isEmpty_cons, hall,
    if_pos hb, if_true]
  simp

/-- Rendering of a decimal digit. Digits above 9 do not occur at the call
sites (all arguments are `k % 10` or bounded quotients). -/
def digitChar : Nat → Char
  | 0 => '0' | 1 => '1' | 2 => '2' | 3 => '3' | 4 => '4'
  | 5 => '5' | 6 => '6' | 7 => '7' | 8 => '8' | _ => '9'

theorem digitChar_facts : ∀ k, k < 10 →
    utf8Len (digitChar k) = 1 ∧ isDigitCh (digitChar k) = true ∧
    (digitChar k).toNat = 48 + k ∧ rustIsWhitespace (digitChar k) = false ∧
    digitChar k ≠ '+' := by decide

/-- Two-digit decimal rendering (zero-padded), for months and days. -/
def digits2 (n : Nat) : List Char := [digitChar (n / 10), digitChar (n % 10)]

/-- Four-digit decimal rendering (zero-padded), for years. -/
def digits4 (n : Nat) : List Char :=
  [digitChar (n / 1000), digitChar (n / 100 % 10),
   digitChar (n / 10 % 10), digitChar (n % 10)]

theorem digits2_facts {n : Nat} (h : n ≤ 99) :
    (∀ c ∈ digits2 n, isDigitCh c = true ∧ utf8Len c = 1 ∧
      rustIsWhitespace c = false) ∧
    digitsVal (digits2 n) = n ∧ byteLen (digits2 n) = 2 := by
  have h1 := digitChar_facts (n / 10) (by omega)
  have h2 := digitChar_facts (n % 10) (by omega)
  refine ⟨?_, ?_, ?_⟩
  · intro c hc
    simp only [digits2, List.mem_cons, List.not_mem_nil, or_false] at hc
    rcases hc with rfl | rfl
    · exact ⟨h1.2.1, h1.1, h1.2.2.2.1⟩
    · exact ⟨h2.2.1, h2.1, h2.2.2.2.1⟩
  · simp only [digitsVal, digits2, List.foldl_cons, List.foldl_nil,
      h1.2.2.1, h2.2.2.1]
    omega
  · simp only [byteLen, digits2, List.map_cons, List.map_nil, List.sum_cons,
      List.sum_nil, h1.1, h2.1]
    omega

theorem digits4_facts {n : Nat} (h : n ≤ 9999) :
    (∀ c ∈ digits4 n, isDigitCh c = true ∧ utf8Len c = 1 ∧
      rustIsWhitespace c = false) ∧
    digitsVal (digits4 n) = n ∧ byteLen (digits4 n) = 4 := by
  have h1 := digitChar_facts (n / 1000) (by omega)
  have h2 := digitChar_facts (n / 100 % 10) (by omega)
  have h3 := digitChar_facts (n / 10 % 10) (by omega)
  have h4 := digitChar_facts (n % 10) (by omega)
  refine ⟨?_, ?_, ?_⟩
  · intro c hc
    simp only [digits4, List.mem_cons, List.not_mem_nil, or_false] at hc
    rcases hc with rfl | rfl | rfl | rfl
    · exact ⟨h1.2.1, h1.1, h1.2.2.2.1⟩
    · exact ⟨h2.2.1, h2.1, h2.2.2.2.1⟩
    · exact ⟨h3.2.1, h3.1, h3.2.2.2.1⟩
    · exact ⟨h4.2.1, h4.1, h4.2.2.2.1⟩
  · simp only [digitsVal, digits4, List.foldl_cons, List.foldl_nil,
      h1.2.2.1, h2.2.2.1, h3.2.2.1, h4.2.2.1]
    omega
  · simp only [byteLen, digits4, List.map_cons, List.map_nil, List.sum_cons,
      List.sum_nil, h1.1, h2.1, h3.1, h4.1]
    omega

/-! ## Helper lemmas: trimming, prefixes and single parser steps -/

theorem dropWhile_eq_self_of_all {p : Char → Bool} {l : List Char}
    (h : ∀ c ∈ l, p c = false) : l.dropWhile p = l := by
  cases l with
  | nil => rfl
  | cons c cs =>
    rw [List.dropWhile_cons, if_neg]
    rw [h c (by simp)]
    simp

theorem trimEnd_eq_self {s : List Char}
    (h : ∀ c ∈ s, rustIsWhitespace c = false) : trimEnd s = s := by
  unfold trimEnd
  rw [dropWhile_eq_self_of_all (fun c hc => h c (List.mem_reverse.mp hc)),
    List.reverse_reverse]

theorem isPrefixOf_append (t r : List Char) : t.isPrefixOf (t ++ r) = true :=
  List.isPrefixOf_iff_prefix.mpr (List.prefix_append t r)

/-- The characters of the fixed `DTSTART` prefix after `"DTSTART;"`. -/
def dtstartTail : List Char := "TZID=Europe/Berlin;VALUE=DATE:".toList

theorem dtstartFull_eq : dtstartFull = dtstartSemi ++ dtstartTail := by decide

/-- The date line of a well-formed block, rendering (y, m, d) as YYYYMMDD. -/
def dtstartLineOf (y m d : Nat) : List Char :=
  dtstartFull ++ (digits4 y ++ (digits2 m ++ digits2 d))

/-- The summary line of a well-formed block for a recognized category. -/
def summaryLineOf (e : Event) : List Char := summaryPre ++ summaryText e

theorem parse_yyyymmdd_render {y m d : Nat} (hy : y ≤ 9999) (hm : m ≤ 99)
    (hd : d ≤ 99) :
    parse_yyyymmdd (digits4 y ++ (digits2 m ++ digits2 d)) =
      match try_from_components y m d with
      | none => .error .invalidDate
      | some dt => .ok dt := by
  have f4 := digits4_facts hy
  have f2m := digits2_facts hm
  have f2d := digits2_facts hd
  have hlen : byteLen (digits4 y ++ (digits2 m ++ digits2 d)) = 8 := by
    rw [byteLen_append, byteLen_append, f4.2.2, f2m.2.2, f2d.2.2]
  have e1 : byteSplitAt 4 (digits4 y ++ (digits2 m ++ digits2 d)) =
      some (digits4 y, digits2 m ++ digits2 d) := by
    rw [show (4 : Nat) = byteLen (digits4 y) from f4.2.2.symm]
    exact byteSplitAt_append _ _
  have e2 : byteSplitAt 2 (digits2 m ++ digits2 d) =
      some (digits2 m, digits2 d) := by
    rw [show (2 : Nat) = byteLen (digits2 m) from f2m.2.2.symm]
    exact byteSplitAt_append _ _
  have e3 : byteSplitAt 2 (digits2 d) = some (digits2 d, []) :=
    byteSplitAt_full f2d.2.2
  have p1 : parseUnsigned u64Max (digits4 y) = some y := by
    have hx := @parseUnsigned_digits u64Max (digits4 y)
      (by simp [digits4]) (fun c hc => (f4.1 c hc).1)
      (by rw [f4.2.1]; simp [u64Max]; omega)
    rw [f4.2.1] at hx
    exact hx
  have p2 : parseUnsigned 255 (digits2 m) = some m := by
    have hx := @parseUnsigned_digits 255 (digits2 m)
      (by simp [digits2]) (fun c hc => (f2m.1 c hc).1) (by rw [f2m.2.1]; omega)
    rw [f2m.2.1] at hx
    exact hx
  have p3 : parseUnsigned 255 (digits2 d) = some d := by
    have hx := @parseUnsigned_digits 255 (digits2 d)
      (by simp [digits2]) (fun c hc => (f2d.1 c hc).1) (by rw [f2d.2.1]; omega)
    rw [f2d.2.1] at hx
    exact hx
  simp only [parse_yyyymmdd, hlen, e1, e2, e3, p1, p2, p3]
  cases htf : try_from_components y m d <;> simp [htf]

theorem stepLine_dtstart (st : PState) {y m d : Nat} (hy : y ≤ 9999)
    (hm : m ≤ 99) (hd : d ≤ 99) (hv : validTriple y m d = true) :
    stepLine st (dtstartLineOf y m d) = .ok { st with start_ts := some ⟨y, m, d⟩ } := by
  have f4 := digits4_facts hy
  have f2m := digits2_facts hm
  have f2d := digits2_facts hd
  have hfullws : ∀ c ∈ dtstartFull, rustIsWhitespace c = false := by decide
  have htrim : trimEnd (dtstartLineOf y m d) = dtstartLineOf y m d := by
    apply trimEnd_eq_self
    intro c hc
    simp only [dtstartLineOf, List.mem_append] at hc
    rcases hc with hc | hc | hc | hc
    · exact hfullws c hc
    · exact (f4.1 c hc).2.2
    · exact (f2m.1 c hc).2.2
    · exact (f2d.1 c hc).2.2
  have hpre1 : dtstartSemi.isPrefixOf (dtstartLineOf y m d) = true := by
    rw [dtstartLineOf, dtstartFull_eq, List.append_assoc]
    exact isPrefixOf_append _ _
  have hpre2 : dtstartFull.isPrefixOf (dtstartLineOf y m d) = true :=
    isPrefixOf_append _ _
  have hblen : byteLen (dtstartLineOf y m d) = 46 := by
    rw [dtstartLineOf, byteLen_append, byteLen_append, byteLen_append,
      f4.2.2, f2m.2.2, f2d.2.2]
    decide
  have hdrop : (dtstartLineOf y m d).drop 38 = digits4 y ++ (digits2 m ++ digits2 d) := by
    rw [dtstartLineOf, show (38 : Nat) = dtstartFull.length from by decide,
      List.drop_left]
  have hparse := parse_yyyymmdd_render hy hm hd
  simp only [stepLine, htrim, hpre1, hpre2, hblen, hdrop, hparse,
    try_from_components, hv, if_true, Bool.not_true, Bool.false_eq_true,
    if_false, ne_eq, not_true_eq_false]

theorem stepLine_summary (st : PState) (e : Event) :
    stepLine st (summaryLineOf e) = .ok { st with event_type := some e } := by
  cases e <;> rfl

theorem stepLine_end_push (E : List IcsEvent) (et : Event) (d : UTCDate) :
    stepLine ⟨E, some et, some d⟩ endVevent =
      .ok ⟨E ++ [⟨d, et⟩], some et, some d⟩ := rfl

theorem stepLine_end_noStart (E : List IcsEvent) (et : Option Event) :
    stepLine ⟨E, et, none⟩ endVevent = .error .endMissingStart := rfl

theorem stepLine_end_noEvent (E : List IcsEvent) (d : UTCDate) :
    stepLine ⟨E, none, some d⟩ endVevent = .error .endMissingEvent := rfl

theorem runLines_nil (st : PState) : runLines st [] = .ok st := rfl

theorem runLines_cons_ok {st st2 : PState} {l : List Char}
    (ls : List (List Char)) (h : stepLine st l = .ok st2) :
    runLines st (l :: ls) = runLines st2 ls := by
  simp [runLines, h]

theorem runLines_cons_err {st : PState} {l : List Char} {p : PanicKind}
    (ls : List (List Char)) (h : stepLine st l = .error p) :
    runLines st (l :: ls) = .error p := by
  simp [runLines, h]

theorem stepLine_dtstart_c (E : List IcsEvent) (et : Option Event)
    (ts : Option UTCDate) {y m d : Nat} (hy : y ≤ 9999) (hm : m ≤ 99)
    (hd : d ≤ 99) (hv : validTriple y m d = true) :
    stepLine ⟨E, et, ts⟩ (dtstartLineOf y m d) = .ok ⟨E, et, some ⟨y, m, d⟩⟩ :=
  stepLine_dtstart ⟨E, et, ts⟩ hy hm hd hv

theorem stepLine_summary_c (E : List IcsEvent) (et : Option Event)
    (ts : Option UTCDate) (e : Event) :
    stepLine ⟨E, et, ts⟩ (summaryLineOf e) = .ok ⟨E, some e, ts⟩ :=
  stepLine_summary ⟨E, et, ts⟩ e

/-! ## Well-formed blocks (for the N-block theorem) -/

/-- The data of one well-formed calendar block: a date and a recognized
category. -/
structure BlockSpec where
  y : Nat
  m : Nat
  d : Nat
  cat : Event
deriving DecidableEq, Repr

/-- The block renders a real calendar date (the year four-digit). -/
def wellFormedBlock (b : BlockSpec) : Prop :=
  b.y ≤ 9999 ∧ b.m ≤ 99 ∧ b.d ≤ 99 ∧ validTriple b.y b.m b.d = true

instance (b : BlockSpec) : Decidable (wellFormedBlock b) := by
  unfold wellFormedBlock
  infer_instance

/-- The three lines of a well-formed block: a valid `DTSTART` line, a
recognized `SUMMARY` line, and the `END:VEVENT` terminator. -/
def blockLines (b : BlockSpec) : List (List Char) :=
  [dtstartLineOf b.y b.m b.d, summaryLineOf b.cat, endVevent]

/-- The event such a block describes. -/
def blockEvent (b : BlockSpec) : IcsEvent := ⟨⟨b.y, b.m, b.d⟩, b.cat⟩

theorem runLines_blocks (bs : List BlockSpec) :
    ∀ (E : List IcsEvent) (et : Option Event) (ts : Option UTCDate),
      (∀ b ∈ bs, wellFormedBlock b) →
      ∃ et2 ts2, runLines ⟨E, et, ts⟩ ((bs.map blockLines).flatten) =
        .ok ⟨E ++ bs.map blockEvent, et2, ts2⟩ := by
  induction bs with
  | nil =>
    intro E et ts _
    exact ⟨et, ts, by simp [runLines_nil]⟩
  | cons b bs ih =>
    intro E et ts h
    obtain ⟨hy, hm, hd, hv⟩ := h b (List.mem_cons_self b bs)
    have hrest : ∀ x ∈ bs, wellFormedBlock x :=
      fun x hx => h x (List.mem_cons_of_mem b hx)
    obtain ⟨et2, ts2, hrun⟩ :=
      ih (E ++ [blockEvent b]) (some b.cat) (some ⟨b.y, b.m, b.d⟩) hrest
    refine ⟨et2, ts2, ?_⟩
    simp only [List.map_cons, List.flatten_cons, blockLines,
      List.cons_append, List.nil_append]
    rw [runLines_cons_ok _ (stepLine_dtstart_c E et ts hy hm hd hv),
      runLines_cons_ok _ (stepLine_summary_c E et (some ⟨b.y, b.m, b.d⟩) b.cat),
      runLines_cons_ok _ (stepLine_end_push E b.cat ⟨b.y, b.m, b.d⟩)]
    simp only [blockEvent] at hrun
    rw [hrun]
    simp [blockEvent, List.append_assoc]

/-! ## Helper lemmas: splitting all-ASCII strings, parse characterization -/

theorem byteSplitAt_ascii_prefix {s : List Char}
    (h : ∀ c ∈ s, utf8Len c = 1) {n : Nat} (hn : n ≤ s.length) :
    byteSplitAt n s = some (s.take n, s.drop n) := by
  have ht : byteLen (s.take n) = n := by
    rw [byteLen_ascii (fun c hc => h c (List.mem_of_mem_take hc))]
    rw [List.length_take]
    omega
  have hx := byteSplitAt_append (s.take n) (s.drop n)
  rw [ht, List.take_append_drop] at hx
  exact hx

theorem parse_not_panicked_of_len {s : List Char} (h : byteLen s ≠ 8) :
    parse_yyyymmdd s ≠ DateResult.panicked := by
  simp [parse_yyyymmdd, h]

theorem parse_not_panicked_of_splits {s a b : List Char}
    (h8 : byteLen s = 8) (h4 : byteSplitAt 4 s = some (a, b))
    (h2 : ∃ c r, byteSplitAt 2 b = some (c, r)) :
    parse_yyyymmdd s ≠ DateResult.panicked := by
  obtain ⟨c, r, hcr⟩ := h2
  obtain ⟨hs_eq, hbl_a⟩ := byteSplitAt_some_spec s 4 a b h4
  obtain ⟨hb_eq, hbl_c⟩ := byteSplitAt_some_spec b 2 c r hcr
  have hbl_b : byteLen b = 4 := by
    rw [hs_eq, byteLen_append] at h8
    omega
  have hbl_r : byteLen r = 2 := by
    rw [hb_eq, byteLen_append] at hbl_b
    omega
  have e3 : byteSplitAt 2 r = some (r, []) := byteSplitAt_full hbl_r
  cases p1 : parseUnsigned u64Max a with
  | none => simp [parse_yyyymmdd, h8, h4, p1]
  | some yv =>
    cases p2 : parseUnsigned 255 c with
    | none => simp [parse_yyyymmdd, h8, h4, hcr, p1, p2]
    | some mv =>
      cases p3 : parseUnsigned 255 r with
      | none => simp [parse_yyyymmdd, h8, h4, hcr, e3, p1, p2, p3]
      | some dv =>
        cases p4 : try_from_components yv mv dv with
        | none => simp [parse_yyyymmdd, h8, h4, hcr, e3, p1, p2, p3, p4]
        | some dt => simp [parse_yyyymmdd, h8, h4, hcr, e3, p1, p2, p3, p4]

theorem parse_not_panicked_ascii {s : List Char}
    (h : ∀ c ∈ s, utf8Len c = 1) :
    parse_yyyymmdd s ≠ DateResult.panicked := by
  by_cases h8 : byteLen s = 8
  · have hlen : s.length = 8 := by rw [byteLen_ascii h] at h8; exact h8
    have e1 : byteSplitAt 4 s = some (s.take 4, s.drop 4) :=
      byteSplitAt_ascii_prefix h (by omega)
    have e2 : byteSplitAt 2 (s.drop 4) =
        some ((s.drop 4).take 2, (s.drop 4).drop 2) :=
      byteSplitAt_ascii_prefix (fun c hc => h c (List.mem_of_mem_drop hc))
        (by rw [List.length_drop]; omega)
    exact parse_not_panicked_of_splits h8 e1 ⟨_, _, e2⟩
  · exact parse_not_panicked_of_len h8

/-! ## Helper lemmas: the connection task and the address wait -/

theorem connectionIter_assocFail :
    connectionIter assocFailEnv =
      ([ConnAction.attemptConnect, .connectFailedLog, .delayMs 5000], none) := rfl

theorem connectionRun_replicate_assocFail (n : Nat) :
    connectionRun (List.replicate n assocFailEnv) =
      ((List.replicate n
        [ConnAction.attemptConnect, .connectFailedLog, .delayMs 5000]).flatten,
       none) := by
  induction n with
  | zero => rfl
  | succ n ih =>
    rw [List.replicate_succ, List.replicate_succ, List.flatten_cons]
    simp only [connectionRun, connectionIter_assocFail, ih]

theorem count_attempt_replicate (n : Nat) :
    ((List.replicate n
      [ConnAction.attemptConnect, .connectFailedLog, .delayMs 5000]).flatten).count
        ConnAction.attemptConnect = n := by
  induction n with
  | zero => rfl
  | succ n ih =>
    rw [List.replicate_succ, List.flatten_cons, List.count_append, ih]
    have h1 : List.count ConnAction.attemptConnect
        [ConnAction.attemptConnect, ConnAction.connectFailedLog,
         ConnAction.delayMs 5000] = 1 := by decide
    omega

theorem phase1Go_none_of_never {linkUp : Nat → Bool}
    (h : ∀ k, linkUp k = false) : ∀ f i, phase1Go linkUp f i = none := by
  intro f
  induction f with
  | zero => intro i; rfl
  | succ f ih => intro i; simp [phase1Go, h i, ih (i + 1)]

theorem phase1Go_some_linkUp {linkUp : Nat → Bool} :
    ∀ {f i : Nat} {t : List WaitAction}, phase1Go linkUp f i = some t →
      ∃ k, linkUp k = true := by
  intro f
  induction f with
  | zero => intro i t h; simp [phase1Go] at h
  | succ f ih =>
    intro i t h
    by_cases hl : linkUp i = true
    · exact ⟨i, hl⟩
    · rw [phase1Go, if_neg (by simp [hl])] at h
      cases hg : phase1Go linkUp f (i + 1) with
      | none => rw [hg] at h; simp at h
      | some t2 => exact ih hg

theorem phase2Go_some_cfg {cfg : Nat → Option Nat} :
    ∀ {f j : Nat} {t : List WaitAction}, phase2Go cfg f j = some t →
      ∃ k, (cfg k).isSome = true := by
  intro f
  induction f with
  | zero => intro j t h; simp [phase2Go] at h
  | succ f ih =>
    intro j t h
    cases hc : cfg j with
    | some a => exact ⟨j, by simp [hc]⟩
    | none =>
      rw [phase2Go, hc] at h
      cases hg : phase2Go cfg f (j + 1) with
      | none => rw [hg] at h; simp at h
      | some t2 => exact ih hg

theorem phase1Go_exact {linkUp : Nat → Bool} :
    ∀ (n i f : Nat), n < f → (∀ x, x < n → linkUp (i + x) = false) →
      linkUp (i + n) = true →
      phase1Go linkUp f i = some
        ((List.replicate n [WaitAction.pollLink false, .sleep500]).flatten ++
          [WaitAction.pollLink true]) := by
  intro n
  induction n with
  | zero =>
    intro i f hf h0 hl
    obtain ⟨g, rfl⟩ : ∃ g, f = g + 1 := ⟨f - 1, by omega⟩
    rw [Nat.add_zero] at hl
    simp [phase1Go, hl]
  | succ n ih =>
    intro i f hf h0 hl
    obtain ⟨g, rfl⟩ : ∃ g, f = g + 1 := ⟨f - 1, by omega⟩
    have hi : linkUp i = false := by
      have hx := h0 0 (by omega)
      rwa [Nat.add_zero] at hx
    rw [phase1Go, if_neg (by simp [hi])]
    rw [ih (i + 1) g (by omega)
      (fun x hx => by
        have hy := h0 (x + 1) (by omega)
        rwa [show i + (x + 1) = i + 1 + x by omega] at hy)
      (by rwa [show i + 1 + n = i + (n + 1) by omega])]
    simp [List.replicate_succ, hi]

theorem phase2Go_exact {cfg : Nat → Option Nat} :
    ∀ (n j f a : Nat), n < f → (∀ x, x < n → cfg (j + x) = none) →
      cfg (j + n) = some a →
      phase2Go cfg f j = some
        ((List.replicate n [WaitAction.pollCfg none, .sleep500]).flatten ++
          [WaitAction.pollCfg (some a), .printGotIp a]) := by
  intro n
  induction n with
  | zero =>
    intro j f a hf h0 hc
    obtain ⟨g, rfl⟩ : ∃ g, f = g + 1 := ⟨f - 1, by omega⟩
    rw [Nat.add_zero] at hc
    simp [phase2Go, hc]
  | succ n ih =>
    intro j f a hf h0 hc
    obtain ⟨g, rfl⟩ : ∃ g, f = g + 1 := ⟨f - 1, by omega⟩
    have hj : cfg j = none := by
      have hx := h0 0 (by omega)
      rwa [Nat.add_zero] at hx
    rw [phase2Go, hj]
    rw [ih (j + 1) g a (by omega)
      (fun x hx => by
        have hy := h0 (x + 1) (by omega)
        rwa [show j + (x + 1) = j + 1 + x by omega] at hy)
      (by rwa [show j + 1 + n = j + (n + 1) by omega])]
    simp [List.replicate_succ]

/-! ## Concrete documents used by the claims -/

/-- The one-block example document of the spec. -/
def exampleDoc : List Char :=
  "DTSTART;TZID=Europe/Berlin;VALUE=DATE:20240115\nSUMMARY:Abfuhr gelbe Wertstofftonne/-sack\nEND:VEVENT\n".toList

/-- A one-block document (date 2024-01-15) with the given summary text. -/
def oneBlockDoc (txt : String) : List Char :=
  ("DTSTART;TZID=Europe/Berlin;VALUE=DATE:20240115\nSUMMARY:" ++ txt ++
    "\nEND:VEVENT\n").toList

/-- Two blocks; the second block supplies a date but no SUMMARY line. -/
def carryoverDoc : List Char :=
  ("DTSTART;TZID=Europe/Berlin;VALUE=DATE:20240115\nSUMMARY:Abfuhr gelbe Wertstofftonne/-sack\nEND:VEVENT\n" ++
   "DTSTART;TZID=Europe/Berlin;VALUE=DATE:20240116\nEND:VEVENT\n").toList

/-- A document whose DTSTART line has 45 characters (date digit missing). -/
def badLenDoc : List Char :=
  "DTSTART;TZID=Europe/Berlin;VALUE=DATE:2024011\nSUMMARY:Abfuhr gelbe Wertstofftonne/-sack\nEND:VEVENT\n".toList

/-! ## The claims -/

/-- C1. The claim says both pending scratch fields are reset to empty after
a record is appended at `END:VEVENT`, so that an emitted event's date and
category always originate inside its own block. The code never resets
`start_ts` / `event_type` (src/bin/main.rs:118-126): on `carryoverDoc`,
whose second block supplies a date but no summary, the code emits a second
event whose category `Verpackungs` is carried over from the first block
instead of failing on the missing category — this theorem evaluates the
code at that failing input. -/
theorem c1_pending_fields_carry_over :
    extract_ics_event carryoverDoc =
      .ok [⟨⟨2024, 1, 15⟩, .Verpackungs⟩, ⟨⟨2024, 1, 16⟩, .Verpackungs⟩] := rfl

/-- C2 counterexample. The claim says a block closing with a missing pending
field fails the parse with a distinct typed error kind `IncompleteRecord`,
"not an untyped halt". On the single-block document with the unrecognized
summary `Abfuhr Sondermüll` the code instead halts in the
`assert!(event_type.is_some())` panic — modelled as `PanicKind` on the
error channel of the model; the source function returns a plain
`Vec<IcsEvent>` and has no typed error at all. -/
theorem c2_counterexample :
    extract_ics_event (oneBlockDoc "Abfuhr Sondermüll") =
      .error .endMissingEvent := rfl

/-- C2 (amended). When a record reaches `END:VEVENT` while the pending
start-date has never been set, or while it is set but the pending category
has never been set, the whole parse halts at that line in the corresponding
`assert!` panic (an untyped halt, not a typed `IncompleteRecord` error);
the single-block unrecognized-summary document halts this way. Due to the
missing reset (C1) the condition is only the state of the scratch fields,
not a per-block property. -/
theorem c2_assert_panic_on_missing_fields :
    (∀ (E : List IcsEvent) (et : Option Event) (ls : List (List Char)),
      runLines ⟨E, et, none⟩ (endVevent :: ls) = .error .endMissingStart) ∧
    (∀ (E : List IcsEvent) (d : UTCDate) (ls : List (List Char)),
      runLines ⟨E, none, some d⟩ (endVevent :: ls) = .error .endMissingEvent) ∧
    extract_ics_event (oneBlockDoc "Abfuhr Sondermüll") =
      .error .endMissingEvent := by
  refine ⟨?_, ?_, rfl⟩
  · intro E et ls
    exact runLines_cons_err ls (stepLine_end_noStart E et)
  · intro E d ls
    exact runLines_cons_err ls (stepLine_end_noEvent E d)

/-- C3 counterexample. The claim says a date line failing the 46-character
length check fails the parse with a distinct typed error kind
`MalformedStartDate`, "not an untyped halt". On a document whose DTSTART
line has 45 characters the code instead halts in the
`assert!(line.len() == 46)` panic; the source function has no typed error
channel. -/
theorem c3_counterexample :
    extract_ics_event badLenDoc = .error .dtstartLenAssert := rfl

/-- C3 (amended). A line that starts with `DTSTART;` but fails the full
prefix assertion, the 46-byte length assertion, or whose date slice fails
`parse_yyyymmdd`, halts the whole parse at that line in the corresponding
`assert!` / `unwrap` panic (an untyped halt, not a typed
`MalformedStartDate` error); no event at all is produced because the parse
aborts, as the concrete 45-character document shows. -/
theorem c3_assert_panic_on_malformed_dtstart :
    (∀ (st : PState) (l : List Char),
      dtstartSemi.isPrefixOf (trimEnd l) = true →
      dtstartFull.isPrefixOf (trimEnd l) = false →
      stepLine st l = .error .dtstartPrefixAssert) ∧
    (∀ (st : PState) (l : List Char),
      dtstartFull.isPrefixOf (trimEnd l) = true →
      byteLen (trimEnd l) ≠ 46 →
      stepLine st l = .error .dtstartLenAssert) ∧
    (∀ (st : PState) (l : List Char) (e : DateErr),
      dtstartFull.isPrefixOf (trimEnd l) = true →
      byteLen (trimEnd l) = 46 →
      parse_yyyymmdd ((trimEnd l).drop 38) = .error e →
      stepLine st l = .error .dtstartDateUnwrap) ∧
    (∀ (st : PState) (l : List Char) (ls : List (List Char)) (p : PanicKind),
      stepLine st l = .error p → runLines st (l :: ls) = .error p) ∧
    extract_ics_event badLenDoc = .error .dtstartLenAssert := by
  have hsemi_full : dtstartSemi <+: dtstartFull :=
    List.isPrefixOf_iff_prefix.mp (by decide)
  refine ⟨?_, ?_, ?_, ?_, rfl⟩
  · intro st l h1 h2
    simp [stepLine, h1, h2]
  · intro st l h1 h2
    have hsemi : dtstartSemi.isPrefixOf (trimEnd l) = true :=
      List.isPrefixOf_iff_prefix.mpr
        (hsemi_full.trans (List.isPrefixOf_iff_prefix.mp h1))
    simp [stepLine, hsemi, h1, h2]
  · intro st l e h1 h2 h3
    have hsemi : dtstartSemi.isPrefixOf (trimEnd l) = true :=
      List.isPrefixOf_iff_prefix.mpr
        (hsemi_full.trans (List.isPrefixOf_iff_prefix.mp h1))
    simp [stepLine, hsemi, h1, h2, h3]
  · intro st l ls p h
    exact runLines_cons_err ls h

/-- C3 witness: the length-assertion case of the amended claim at the
concrete 45-character DTSTART line. -/
theorem c3_witness :
    stepLine initPState
      "DTSTART;TZID=Europe/Berlin;VALUE=DATE:2024011".toList =
      .error .dtstartLenAssert :=
  c3_assert_panic_on_malformed_dtstart.2.1 initPState
    "DTSTART;TZID=Europe/Berlin;VALUE=DATE:2024011".toList
    (by decide) (by decide)

/-- C8. The one-block example document yields exactly one event, date
2024-01-15 and category recyclable packaging (`Verpackungs`); each of the
six fixed German summary strings maps to its category, and matching is
case-sensitive (a lower-cased variant is not recognized, so the block
closes with no pending category and the parse halts in the assert panic). -/
theorem c8_example_document_and_categories :
    extract_ics_event exampleDoc = .ok [⟨⟨2024, 1, 15⟩, .Verpackungs⟩] ∧
    extract_ics_event (oneBlockDoc "Abfuhr gelbe Wertstofftonne/-sack") =
      .ok [⟨⟨2024, 1, 15⟩, .Verpackungs⟩] ∧
    extract_ics_event (oneBlockDoc "Abfuhr grüne Biotonne") =
      .ok [⟨⟨2024, 1, 15⟩, .Bio⟩] ∧
    extract_ics_event (oneBlockDoc "Abfuhr blaue Papiertonne") =
      .ok [⟨⟨2024, 1, 15⟩, .Papier⟩] ∧
    extract_ics_event (oneBlockDoc "Abfuhr schwarze Restmülltonne") =
      .ok [⟨⟨2024, 1, 15⟩, .Restmuell⟩] ∧
    extract_ics_event (oneBlockDoc "Abfuhr Laubsäcke") =
      .ok [⟨⟨2024, 1, 15⟩, .Laubsack⟩] ∧
    extract_ics_event (oneBlockDoc "Abfuhr Weihnachtsbäume") =
      .ok [⟨⟨2024, 1, 15⟩, .Weihnachtsbaeume⟩] ∧
    extract_ics_event (oneBlockDoc "abfuhr gelbe Wertstofftonne/-sack") =
      .error .endMissingEvent :=
  ⟨rfl, rfl, rfl, rfl, rfl, rfl, rfl, rfl⟩

/-- C4. For a string of exactly 8 ASCII digits, `parse_yyyymmdd` returns
exactly the (year, month, day) triple read from the (first-4, next-2,
last-2) sub-fields when that triple is a real proleptic-Gregorian date, and
fails with the `RangeError` kind (the "Invalid date" message, distinct from
every `FormatError` message) when it is not. -/
theorem c4_digits_roundtrip_or_range_error (s : List Char)
    (h8 : s.length = 8) (hd : ∀ c ∈ s, isDigitCh c = true) :
    (validTriple (digitsVal (s.take 4)) (digitsVal ((s.drop 4).take 2))
        (digitsVal (s.drop 6)) = true →
      parse_yyyymmdd s = .ok ⟨digitsVal (s.take 4),
        digitsVal ((s.drop 4).take 2), digitsVal (s.drop 6)⟩) ∧
    (validTriple (digitsVal (s.take 4)) (digitsVal ((s.drop 4).take 2))
        (digitsVal (s.drop 6)) = false →
      parse_yyyymmdd s = .error .invalidDate ∧
      DateErr.isRangeError .invalidDate = true ∧
      DateErr.isFormatError .invalidDate = false) := by
  have hascii : ∀ c ∈ s, utf8Len c = 1 :=
    fun c hc => utf8Len_eq_one_of_digit (hd c hc)
  have hbl : byteLen s = 8 := by rw [byteLen_ascii hascii, h8]
  have e1 : byteSplitAt 4 s = some (s.take 4, s.drop 4) :=
    byteSplitAt_ascii_prefix hascii (by omega)
  have e2 : byteSplitAt 2 (s.drop 4) = some ((s.drop 4).take 2, s.drop 6) := by
    have hlen4 : (s.drop 4).length = 4 := by rw [List.length_drop, h8]
    have hx := byteSplitAt_ascii_prefix
      (fun c hc => hascii c (List.mem_of_mem_drop hc))
      (show 2 ≤ (s.drop 4).length by omega)
    rw [List.drop_drop] at hx
    exact hx
  have e3 : byteSplitAt 2 (s.drop 6) = some (s.drop 6, []) := by
    apply byteSplitAt_full
    rw [byteLen_ascii (fun c hc => hascii c (List.mem_of_mem_drop hc)),
      List.length_drop, h8]
  have htakelen : (s.take 4).length = 4 := by rw [List.length_take]; omega
  have hne4 : s.take 4 ≠ [] := by
    intro hnil
    rw [hnil] at htakelen
    simp at htakelen
  have hdig4 : ∀ c ∈ s.take 4, isDigitCh c = true :=
    fun c hc => hd c (List.mem_of_mem_take hc)
  have p1 : parseUnsigned u64Max (s.take 4) = some (digitsVal (s.take 4)) := by
    apply parseUnsigned_digits hne4 hdig4
    have hlt := digitsVal_lt hdig4
    rw [htakelen] at hlt
    simp only [u64Max]
    omega
  have htakelen2 : ((s.drop 4).take 2).length = 2 := by
    rw [List.length_take, List.length_drop]
    omega
  have hne2 : (s.drop 4).take 2 ≠ [] := by
    intro hnil
    rw [hnil] at htakelen2
    simp at htakelen2
  have hdig2 : ∀ c ∈ (s.drop 4).take 2, isDigitCh c = true :=
    fun c hc => hd c (List.mem_of_mem_drop (List.mem_of_mem_take hc))
  have p2 : parseUnsigned 255 ((s.drop 4).take 2) =
      some (digitsVal ((s.drop 4).take 2)) := by
    apply parseUnsigned_digits hne2 hdig2
    have hlt := digitsVal_lt hdig2
    rw [htakelen2] at hlt
    omega
  have hdroplen : (s.drop 6).length = 2 := by rw [List.length_drop]; omega
  have hne6 : s.drop 6 ≠ [] := by
    intro hnil
    rw [hnil] at hdroplen
    simp at hdroplen
  have hdig6 : ∀ c ∈ s.drop 6, isDigitCh c = true :=
    fun c hc => hd c (List.mem_of_mem_drop hc)
  have p3 : parseUnsigned 255 (s.drop 6) = some (digitsVal (s.drop 6)) := by
    apply parseUnsigned_digits hne6 hdig6
    have hlt := digitsVal_lt hdig6
    rw [hdroplen] at hlt
    omega
  constructor
  · intro hv
    simp [parse_yyyymmdd, hbl, e1, e2, e3, p1, p2, p3, try_from_components, hv]
  · intro hv
    refine ⟨?_, rfl, rfl⟩
    simp [parse_yyyymmdd, hbl, e1, e2, e3, p1, p2, p3, try_from_components, hv]

/-- C4 witness: the theorem applied at the real date 2024-01-15 and at the
non-date 2024-02-30. -/
theorem c4_witness :
    parse_yyyymmdd "20240115".toList = .ok ⟨2024, 1, 15⟩ ∧
    parse_yyyymmdd "20240230".toList = .error .invalidDate := by
  constructor
  · exact (c4_digits_roundtrip_or_range_error "20240115".toList
      (by decide) (by decide)).1 (by decide)
  · exact ((c4_digits_roundtrip_or_range_error "20240230".toList
      (by decide) (by decide)).2 (by decide)).1

/-- C5 counterexample. The claim says any length-8 input containing a
non-digit (a sign among the examples) fails with `FormatError` and never
returns a date. Rust's unsigned-integer parse accepts an optional leading
`'+'` in each sub-field, so `"2024+115"` — 8 bytes, one non-digit —
returns the date 2024-01-15. -/
theorem c5_counterexample :
    parse_yyyymmdd "2024+115".toList = .ok ⟨2024, 1, 15⟩ := rfl

/-- C5 (amended). An input whose byte length is not 8 fails with the
`FormatError` kind ("Expected 8 characters"); a length-8 input fails with a
`FormatError` kind when a sub-field does not parse as an unsigned integer
(checked left to right: year, month, day) — but each sub-field parse
accepts an optional leading `'+'` before the digits, so a `'+'` does not
make the field fail. Length-8 inputs that split a multi-byte character at
byte 4 or 6 panic instead (see C6). -/
theorem c5_format_error_cases :
    (∀ s : List Char, byteLen s ≠ 8 →
      parse_yyyymmdd s = .error .expectedEight ∧
      DateErr.isFormatError .expectedEight = true) ∧
    (∀ (s a b : List Char), byteLen s = 8 → byteSplitAt 4 s = some (a, b) →
      parseUnsigned u64Max a = none →
      parse_yyyymmdd s = .error .invalidYear ∧
      DateErr.isFormatError .invalidYear = true) ∧
    (∀ (s a b c r : List Char) (y : Nat), byteLen s = 8 →
      byteSplitAt 4 s = some (a, b) → parseUnsigned u64Max a = some y →
      byteSplitAt 2 b = some (c, r) → parseUnsigned 255 c = none →
      parse_yyyymmdd s = .error .invalidMonth ∧
      DateErr.isFormatError .invalidMonth = true) ∧
    (∀ (s a b c r e f : List Char) (y mo : Nat), byteLen s = 8 →
      byteSplitAt 4 s = some (a, b) → parseUnsigned u64Max a = some y →
      byteSplitAt 2 b = some (c, r) → parseUnsigned 255 c = some mo →
      byteSplitAt 2 r = some (e, f) → parseUnsigned 255 e = none →
      parse_yyyymmdd s = .error .invalidDay ∧
      DateErr.isFormatError .invalidDay = true) := by
  refine ⟨?_, ?_, ?_, ?_⟩
  · intro s h
    exact ⟨by simp [parse_yyyymmdd, h], rfl⟩
  · intro s a b h8 h4 hp
    exact ⟨by simp [parse_yyyymmdd, h8, h4, hp], rfl⟩
  · intro s a b c r y h8 h4 hp1 h2 hp2
    exact ⟨by simp [parse_yyyymmdd, h8, h4, hp1, h2, hp2], rfl⟩
  · intro s a b c r e f y mo h8 h4 hp1 h2 hp2 h3 hp3
    exact ⟨by simp [parse_yyyymmdd, h8, h4, hp1, h2, hp2, h3, hp3], rfl⟩

/-- C5 witness: the length case of the amended claim at `"123"`. -/
theorem c5_witness :
    parse_yyyymmdd "123".toList = .error .expectedEight ∧
    DateErr.isFormatError .expectedEight = true :=
  c5_format_error_cases.1 "123".toList (by decide)

/-- C6 counterexample. The claim says the byte-index slicing of
`parse_yyyymmdd` cannot hit a non-character boundary even for 8-byte
inputs with multi-byte UTF-8 characters. `"123ä456"` is a valid UTF-8
string of 8 bytes whose byte 4 falls inside the two-byte `ä`, and slicing
`&s[0..4]` panics on it. -/
theorem c6_counterexample :
    byteLen "123ä456".toList = 8 ∧
    parse_yyyymmdd "123ä456".toList = .panicked := ⟨rfl, rfl⟩

/-- C6 (amended). `parse_yyyymmdd` never panics on an input whose byte
length differs from 8, nor on a length-8 input whose byte indices 4 and 6
fall on character boundaries (in particular on any all-ASCII input); but
an 8-byte input in which byte index 4 or 6 splits a multi-byte character
panics in the slicing. -/
theorem c6_no_panic_on_char_boundaries :
    (∀ s : List Char, byteLen s ≠ 8 →
      parse_yyyymmdd s ≠ DateResult.panicked) ∧
    (∀ (s a b : List Char), byteLen s = 8 → byteSplitAt 4 s = some (a, b) →
      (∃ c r, byteSplitAt 2 b = some (c, r)) →
      parse_yyyymmdd s ≠ DateResult.panicked) ∧
    (∀ s : List Char, (∀ c ∈ s, utf8Len c = 1) →
      parse_yyyymmdd s ≠ DateResult.panicked) :=
  ⟨fun _ h => parse_not_panicked_of_len h,
   fun _ _ _ h8 h4 h2 => parse_not_panicked_of_splits h8 h4 h2,
   fun _ h => parse_not_panicked_ascii h⟩

/-- C6 witness: the all-ASCII case of the amended claim at `"20240115"`. -/
theorem c6_witness :
    parse_yyyymmdd "20240115".toList ≠ DateResult.panicked :=
  c6_no_panic_on_char_boundaries.2.2 "20240115".toList (by decide)

/-- C7. A document consisting of N well-formed blocks — each supplying a
valid date line, a recognized summary line and the `END:VEVENT` terminator
— parses to exactly N events, one per block, in document order, with no
sorting and no deduplication: the output is literally the map of the block
list, so duplicate blocks yield duplicate events. -/
theorem c7_n_blocks_in_document_order (bs : List BlockSpec)
    (h : ∀ b ∈ bs, wellFormedBlock b) :
    extract_ics_event_lines ((bs.map blockLines).flatten) =
      .ok (bs.map blockEvent) := by
  obtain ⟨et2, ts2, hrun⟩ := runLines_blocks bs [] none none h
  simp [extract_ics_event_lines, initPState, hrun, Except.map]

/-- C7 witness: two identical well-formed blocks yield the two (duplicate)
events in order. -/
theorem c7_witness :
    extract_ics_event_lines
      ((([⟨2024, 1, 15, Event.Bio⟩, ⟨2024, 1, 15, Event.Bio⟩] :
        List BlockSpec).map blockLines).flatten) =
      .ok [⟨⟨2024, 1, 15⟩, .Bio⟩, ⟨⟨2024, 1, 15⟩, .Bio⟩] :=
  c7_n_blocks_in_document_order
    [⟨2024, 1, 15, Event.Bio⟩, ⟨2024, 1, 15, Event.Bio⟩] (by decide)

/-- C9 counterexample. The claim says scan failures (like association
failures) are absorbed by the supervisor loop, which never terminates and
never surfaces an error. In the code the scan result is `unwrap`ped
(src/bin/main.rs:228-231): a single failed scan during the start sequence
panics the task — the run terminates with an elevated `scanUnwrap` panic
after only the radio start. -/
theorem c9_counterexample :
    connectionRun [⟨false, false, true, true, false, true⟩] =
      ([ConnAction.startRadio], some ConnPanic.scanUnwrap) := rfl

/-- C9 (amended). For every N, a run of N+1 iterations in which the radio
is already started and every `connect_async` fails makes exactly N+1
association attempts — after N consecutive failures the supervisor still
attempts an (N+1)-th time — each failure followed by the failure log and
the fixed 5000 ms backoff, with no panic and no error surfaced; however a
set-config, radio-start or scan failure during the start sequence panics
the task via `unwrap` (see the counterexample). -/
theorem c9_unbounded_assoc_retry (N : Nat) :
    connectionRun (List.replicate (N + 1) assocFailEnv) =
      ((List.replicate (N + 1)
        [ConnAction.attemptConnect, .connectFailedLog, .delayMs 5000]).flatten,
       none) ∧
    (connectionRun (List.replicate (N + 1) assocFailEnv)).1.count
      ConnAction.attemptConnect = N + 1 := by
  refine ⟨connectionRun_replicate_assocFail (N + 1), ?_⟩
  rw [connectionRun_replicate_assocFail (N + 1)]
  exact count_attempt_replicate (N + 1)

/-- Counterexample environment A for C10: link up at once, first config
poll yields address 10. -/
def netEnvA : NetEnv := ⟨fun _ => true, fun _ => some 10⟩

/-- Counterexample environment B for C10: link up at once, first config
poll yields address 20. -/
def netEnvB : NetEnv := ⟨fun _ => true, fun _ => some 20⟩

/-- C10 counterexample. The claim says `wait_for_connection` returns the
acquired IPv4 configuration value to the caller. The source function
returns `()` (it only prints the address): its return value is the same
unit for two environments that acquire different configurations, so the
caller receives no configuration value. -/
theorem c10_counterexample :
    netEnvA.cfg 0 = some 10 ∧ netEnvB.cfg 0 = some 20 ∧
    waitReturnValue netEnvA 1 = some () ∧
    waitReturnValue netEnvB 1 = some () ∧
    waitReturnValue netEnvA 1 = waitReturnValue netEnvB 1 :=
  ⟨rfl, rfl, rfl, rfl, rfl⟩

/-- C10 (amended). `wait_for_connection` polls link-up on the fixed 500 ms
interval until it holds, only then polls the IPv4 configuration on the
same interval until one is present, prints that configuration and returns
control (the unit value, not the configuration) to the caller; a completed
wait implies both conditions held, and with the link never up it suspends
forever (no timeout path): every fuel bound yields a still-running state. -/
theorem c10_wait_phases_no_timeout :
    (∀ (env : NetEnv) (fuel : Nat) (t : List WaitAction × Unit),
      wait_for_connection env fuel = some t →
      (∃ k, env.linkUp k = true) ∧ (∃ j, (env.cfg j).isSome = true)) ∧
    (∀ (env : NetEnv) (fuel : Nat), (∀ k, env.linkUp k = false) →
      wait_for_connection env fuel = none) ∧
    (∀ (env : NetEnv) (k j a fuel : Nat), k < fuel → j < fuel →
      (∀ x, x < k → env.linkUp x = false) → env.linkUp k = true →
      (∀ x, x < j → env.cfg x = none) → env.cfg j = some a →
      wait_for_connection env fuel = some
        ((List.replicate k [WaitAction.pollLink false, .sleep500]).flatten ++
          [WaitAction.pollLink true] ++
          ((List.replicate j [WaitAction.pollCfg none, .sleep500]).flatten ++
            [WaitAction.pollCfg (some a), .printGotIp a]), ())) := by
  refine ⟨?_, ?_, ?_⟩
  · intro env fuel t h
    unfold wait_for_connection at h
    cases hp1 : phase1Go env.linkUp fuel 0 with
    | none => rw [hp1] at h; simp at h
    | some t1 =>
      rw [hp1] at h
      cases hp2 : phase2Go env.cfg fuel 0 with
      | none => rw [hp2] at h; simp at h
      | some t2 => exact ⟨phase1Go_some_linkUp hp1, phase2Go_some_cfg hp2⟩
  · intro env fuel h
    unfold wait_for_connection
    rw [phase1Go_none_of_never h fuel 0]
  · intro env k j a fuel hk hj h1 h2 h3 h4
    unfold wait_for_connection
    rw [phase1Go_exact k 0 fuel hk
        (fun x hx => by simpa using h1 x hx) (by simpa using h2),
      phase2Go_exact j 0 fuel a hj
        (fun x hx => by simpa using h3 x hx) (by simpa using h4)]

/-- Environment for the C10 witness: link up from the second poll, config
present from the third poll, with address 7. -/
def witnessNetEnv : NetEnv :=
  ⟨fun k => decide (1 ≤ k), fun j => if 2 ≤ j then some 7 else none⟩

/-- C10 witness: the phase-structure case of the amended claim at a
concrete environment, exhibiting the full action trace. -/
theorem c10_witness :
    wait_for_connection witnessNetEnv 3 = some
      ([WaitAction.pollLink false, .sleep500, .pollLink true,
        .pollCfg none, .sleep500, .pollCfg none, .sleep500,
        .pollCfg (some 7), .printGotIp 7], ()) :=
  c10_wait_phases_no_timeout.2.2 witnessNetEnv 1 2 7 3 (by decide) (by decide)
    (by decide) (by decide) (by decide) (by decide)

end Muell
